import Mathlib

/-!
Verification of the extraction / noise-stripping / retry logic of the
linkedin-mcp-server repository (`linkedin_mcp_server/scraping/extractor.py`
and the tool layer in `linkedin_mcp_server/tools/`).

Strings are embedded as `List Char`.  Python's `str.strip()` is embedded as
`pyStrip` (ASCII whitespace).  The four compiled regular expressions of
`_NOISE_MARKERS` are embedded as decidable match predicates on a text and a
candidate match-start position; `re.Pattern.search` is embedded as a linear
scan returning the least matching position, exactly the value of
`match.start()` used by `strip_linkedin_noise`.
-/

namespace LinkedInMcp

/-- ASCII whitespace stripped by Python's `str.strip()`. -/
def isWs (c : Char) : Bool :=
  c == ' ' || c == '\t' || c == '\n' || c == '\r' || c == '\x0b' || c == '\x0c'

/-- Drop leading whitespace (the left half of `str.strip()`). -/
def dropLead (l : List Char) : List Char := l.dropWhile isWs

/-- Drop trailing whitespace (the right half of `str.strip()`). -/
def dropTrail (l : List Char) : List Char := (l.reverse.dropWhile isWs).reverse

/-- Python `str.strip()` with no arguments: remove leading and trailing
whitespace. -/
def pyStrip (l : List Char) : List Char := dropTrail (dropLead l)

/-- `^` in `re.MULTILINE` mode: position `i` is the start of the string or is
preceded by a newline. -/
def isLineStart (text : List Char) (i : Nat) : Bool :=
  i == 0 || text.getD (i - 1) ' ' == '\n'

/-- `$` in `re.MULTILINE` mode: position `j` is the end of the string or holds
a newline. -/
def isLineEnd (text : List Char) (j : Nat) : Bool :=
  j == text.length || text.getD j ' ' == '\n'

/-- Noise marker 1, `^About\n+(?:Accessibility|Talent Solutions)` (MULTILINE):
footer nav links.  A match starts at `i` iff `i` is a line start, the text
continues with `About`, then a nonempty run of newlines, then `Accessibility`
or `Talent Solutions` (neither alternative starts with a newline, so the run
of newlines consumed is exactly the maximal one). -/
def marker1At (text : List Char) (i : Nat) : Bool :=
  isLineStart text i &&
    (let rest := text.drop i
     "About".toList.isPrefixOf rest &&
       (let afterAbout := rest.drop 5
        (afterAbout.headD ' ' == '\n') &&
          (let afterNl := afterAbout.dropWhile (fun c => c == '\n')
           "Accessibility".toList.isPrefixOf afterNl ||
             "Talent Solutions".toList.isPrefixOf afterNl)))

/-- Noise marker 2, `^More profiles for you$` (MULTILINE): sidebar profile
recommendations. -/
def marker2At (text : List Char) (i : Nat) : Bool :=
  isLineStart text i &&
    "More profiles for you".toList.isPrefixOf (text.drop i) &&
    isLineEnd text (i + 21)

/-- Noise marker 3, `^Explore premium profiles$` (MULTILINE): sidebar premium
upsell. -/
def marker3At (text : List Char) (i : Nat) : Bool :=
  isLineStart text i &&
    "Explore premium profiles".toList.isPrefixOf (text.drop i) &&
    isLineEnd text (i + 24)

/-- Noise marker 4, `^Get up to .+ replies when you message with InMail$`
(MULTILINE): InMail upsell.  Anchored on both sides, so the whole line from
`i` must be `Get up to ` ++ middle ++ ` replies when you message with InMail`
with a nonempty middle (`.` does not match a newline, and the line by
construction contains none). -/
def marker4At (text : List Char) (i : Nat) : Bool :=
  isLineStart text i &&
    (let line := (text.drop i).takeWhile (fun c => !(c == '\n'))
     "Get up to ".toList.isPrefixOf line &&
       " replies when you message with InMail".toList.isSuffixOf line &&
       decide ("Get up to ".length + " replies when you message with InMail".length
         < line.length))

/-- The `_NOISE_MARKERS` list, in source order. -/
def noiseMarkers : List (List Char → Nat → Bool) :=
  [marker1At, marker2At, marker3At, marker4At]

/-- Some noise-marker pattern matches starting at position `i`. -/
def markerAnyAt (text : List Char) (i : Nat) : Bool :=
  noiseMarkers.any (fun p => p text i)

/-- Linear scan for the least match position, starting at `i` with `fuel`
positions left to try.  This is `re.Pattern.search`: the regex engine tries
successive start positions and reports the first (least) one that matches. -/
def searchAux (p : List Char → Nat → Bool) (text : List Char) :
    Nat → Nat → Option Nat
  | _, 0 => none
  | i, fuel + 1 => if p text i then some i else searchAux p text (i + 1) fuel

/-- `pattern.search(text)`: the least position in `[0, text.length]` where the
pattern matches, if any. -/
def searchPat (p : List Char → Nat → Bool) (text : List Char) : Option Nat :=
  searchAux p text 0 (text.length + 1)

/-- One step of the `earliest` accumulator in `strip_linkedin_noise`:
`if match and match.start() < earliest: earliest = match.start()`. -/
def updMin (acc : Nat) : Option Nat → Nat
  | some i => if i < acc then i else acc
  | none => acc

/-- The `earliest` value computed by `strip_linkedin_noise`: starting from
`len(text)`, take each pattern's search result and keep the minimum. -/
def earliestNoise (text : List Char) : Nat :=
  noiseMarkers.foldl (fun acc p => updMin acc (searchPat p text)) text.length

/-- `strip_linkedin_noise(text)`: truncate at the earliest noise-marker match
and strip surrounding whitespace (`return text[:earliest].strip()`). -/
def strip_linkedin_noise (text : List Char) : List Char :=
  pyStrip (text.take (earliestNoise text))

example : strip_linkedin_noise "hello world".toList = "hello world".toList := by decide

example : strip_linkedin_noise "hi\nMore profiles for you".toList = "hi".toList := by
  decide

example :
    strip_linkedin_noise "x\nAbout\n\nAccessibility\nz".toList = "x".toList := by
  decide

example :
    strip_linkedin_noise "a\nGet up to 4x replies when you message with InMail\nb".toList
      = "a".toList := by
  decide

example : strip_linkedin_noise "  padded  ".toList = "padded".toList := by decide

/-! ### Properties of the match search -/

theorem searchAux_eq_some (p : List Char → Nat → Bool) (text : List Char) :
    ∀ fuel i j, searchAux p text i fuel = some j →
      p text j = true ∧ i ≤ j ∧ j < i + fuel ∧
        ∀ k, i ≤ k → k < j → p text k = false := by
  intro fuel
  induction fuel with
  | zero => intro i j h; simp [searchAux] at h
  | succ n ih =>
    intro i j h
    rw [searchAux] at h
    split at h
    next hp =>
      cases h
      exact ⟨hp, Nat.le_refl i, by omega, fun k hik hki => absurd hki (by omega)⟩
    next hp =>
      have hp' : p text i = false := by
        cases hpt : p text i
        · rfl
        · exact absurd hpt hp
      obtain ⟨h1, h2, h3, h4⟩ := ih (i + 1) j h
      refine ⟨h1, by omega, by omega, fun k hik hkj => ?_⟩
      rcases Nat.lt_or_ge i k with hlt | hge
      · exact h4 k hlt hkj
      · have hk : k = i := by omega
        rw [hk]; exact hp'

theorem searchAux_eq_none (p : List Char → Nat → Bool) (text : List Char) :
    ∀ fuel i, searchAux p text i fuel = none →
      ∀ k, i ≤ k → k < i + fuel → p text k = false := by
  intro fuel
  induction fuel with
  | zero => intro i _ k _ hk; exact absurd hk (by omega)
  | succ n ih =>
    intro i h k hik hk
    rw [searchAux] at h
    split at h
    next hp => cases h
    next hp =>
      have hp' : p text i = false := by
        cases hpt : p text i
        · rfl
        · exact absurd hpt hp
      rcases Nat.lt_or_ge i k with hlt | hge
      · exact ih (i + 1) h k hlt (by omega)
      · have hk' : k = i := by omega
        rw [hk']; exact hp'

theorem searchPat_eq_some (p : List Char → Nat → Bool) (text : List Char) (j : Nat)
    (h : searchPat p text = some j) :
    p text j = true ∧ j ≤ text.length ∧ ∀ k, k < j → p text k = false := by
  obtain ⟨h1, _, h3, h4⟩ := searchAux_eq_some p text (text.length + 1) 0 j h
  exact ⟨h1, by omega, fun k hk => h4 k (Nat.zero_le k) hk⟩

theorem searchPat_eq_none (p : List Char → Nat → Bool) (text : List Char)
    (h : searchPat p text = none) :
    ∀ k, k ≤ text.length → p text k = false := fun k hk =>
  searchAux_eq_none p text (text.length + 1) 0 h k (Nat.zero_le k) (by omega)

theorem updMin_le (acc : Nat) (o : Option Nat) : updMin acc o ≤ acc := by
  cases o with
  | none => exact Nat.le_refl acc
  | some i => simp only [updMin]; split <;> omega

theorem updMin_some_le (acc i : Nat) : updMin acc (some i) ≤ i := by
  simp only [updMin]; split <;> omega

theorem updMin_cases (acc : Nat) (o : Option Nat) :
    updMin acc o = acc ∨ o = some (updMin acc o) := by
  cases o with
  | none => exact Or.inl rfl
  | some i =>
    simp only [updMin]; split
    · exact Or.inr rfl
    · exact Or.inl rfl

theorem foldMin_le (text : List Char) :
    ∀ (ps : List (List Char → Nat → Bool)) (acc : Nat),
      ps.foldl (fun a q => updMin a (searchPat q text)) acc ≤ acc := by
  intro ps
  induction ps with
  | nil => intro acc; exact Nat.le_refl acc
  | cons q ps ih =>
    intro acc
    exact Nat.le_trans (ih _) (updMin_le acc _)

theorem foldMin_le_some (text : List Char) :
    ∀ (ps : List (List Char → Nat → Bool)) (acc : Nat) p i, p ∈ ps →
      searchPat p text = some i →
      ps.foldl (fun a q => updMin a (searchPat q text)) acc ≤ i := by
  intro ps
  induction ps with
  | nil => intro acc p i hp _; exact absurd hp (List.not_mem_nil p)
  | cons q ps ih =>
    intro acc p i hp hs
    rcases List.mem_cons.mp hp with h | hmem
    · rw [List.foldl_cons]
      refine Nat.le_trans (foldMin_le text ps _) ?_
      rw [← h, hs]
      exact updMin_some_le acc i
    · exact ih _ p i hmem hs

theorem foldMin_cases (text : List Char) :
    ∀ (ps : List (List Char → Nat → Bool)) (acc : Nat),
      (ps.foldl (fun a q => updMin a (searchPat q text)) acc = acc) ∨
        ∃ p ∈ ps, searchPat p text =
          some (ps.foldl (fun a q => updMin a (searchPat q text)) acc) := by
  intro ps
  induction ps with
  | nil => intro acc; exact Or.inl rfl
  | cons q ps ih =>
    intro acc
    rcases ih (updMin acc (searchPat q text)) with h | ⟨p, hp, hs⟩
    · rcases updMin_cases acc (searchPat q text) with h2 | h2
      · left; rw [List.foldl_cons, h, h2]
      · right
        refine ⟨q, List.mem_cons_self q ps, ?_⟩
        rw [List.foldl_cons, h]; exact h2
    · right; exact ⟨p, List.mem_cons_of_mem q hp, by rw [List.foldl_cons]; exact hs⟩

theorem markerAnyAt_iff (text : List Char) (i : Nat) :
    markerAnyAt text i = true ↔ ∃ p ∈ noiseMarkers, p text i = true := by
  simp [markerAnyAt, List.any_eq_true]

theorem earliestNoise_le (text : List Char) : earliestNoise text ≤ text.length := by
  unfold earliestNoise
  exact foldMin_le text noiseMarkers text.length

/-- The `earliest` value of `strip_linkedin_noise` is the least position at
which some noise marker matches, whenever one matches at all. -/
theorem earliestNoise_min (text : List Char)
    (h : ∃ i, i ≤ text.length ∧ markerAnyAt text i = true) :
    markerAnyAt text (earliestNoise text) = true ∧
      ∀ j, j < earliestNoise text → markerAnyAt text j = false := by
  obtain ⟨i, hi, hany⟩ := h
  obtain ⟨p, hpmem, hpi⟩ := (markerAnyAt_iff text i).mp hany
  have hsome : ∃ j, searchPat p text = some j ∧ j ≤ i := by
    cases hcase : searchPat p text with
    | none =>
      exfalso
      have := searchPat_eq_none p text hcase i hi
      simp [this] at hpi
    | some j =>
      obtain ⟨h1, h2, h3⟩ := searchPat_eq_some p text j hcase
      by_cases hji : j ≤ i
      · exact ⟨j, rfl, hji⟩
      · exfalso
        have := h3 i (by omega)
        simp [this] at hpi
  obtain ⟨j, hsj, hji⟩ := hsome
  have hEj : earliestNoise text ≤ j := by
    unfold earliestNoise
    exact foldMin_le_some text noiseMarkers text.length p j hpmem hsj
  constructor
  · rcases foldMin_cases text noiseMarkers text.length with hE | ⟨q, hq, hsq⟩
    · have hE' : earliestNoise text = text.length := hE
      have hjlen : j = text.length := by
        have := earliestNoise_le text
        omega
      obtain ⟨h1, _, _⟩ := searchPat_eq_some p text j hsj
      refine (markerAnyAt_iff text _).mpr ⟨p, hpmem, ?_⟩
      rw [hE']
      rw [hjlen] at h1
      exact h1
    · obtain ⟨h1, _, _⟩ := searchPat_eq_some q text _ hsq
      exact (markerAnyAt_iff text _).mpr ⟨q, hq, h1⟩
  · intro k hk
    cases hb : markerAnyAt text k with
    | false => rfl
    | true =>
      exfalso
      obtain ⟨q, hq, hqk⟩ := (markerAnyAt_iff text k).mp hb
      have hklen : k ≤ text.length := by
        have := earliestNoise_le text
        omega
      cases hcase : searchPat q text with
      | none =>
        have := searchPat_eq_none q text hcase k hklen
        simp [this] at hqk
      | some m =>
        obtain ⟨hm1, hm2, hm3⟩ := searchPat_eq_some q text m hcase
        have hmk : m ≤ k := by
          by_contra hmk
          have := hm3 k (by omega)
          simp [this] at hqk
        have hle : earliestNoise text ≤ m := by
          unfold earliestNoise
          exact foldMin_le_some text noiseMarkers text.length q m hq hcase
        omega

/-! ### Properties of `pyStrip` -/

theorem dropWhile_head?_not (p : Char → Bool) :
    ∀ (l : List Char) (a : Char), (l.dropWhile p).head? = some a → p a = false := by
  intro l
  induction l with
  | nil => intro a h; simp [List.dropWhile] at h
  | cons b t ih =>
    intro a h
    rw [List.dropWhile] at h
    cases hb : p b with
    | true => rw [hb] at h; exact ih a h
    | false =>
      rw [hb] at h
      simp at h
      rw [← h]; exact hb

theorem dropLead_eq_self (l : List Char)
    (h : ∀ a, l.head? = some a → isWs a = false) : dropLead l = l := by
  cases l with
  | nil => rfl
  | cons a t =>
    have ha : isWs a = false := h a rfl
    simp [dropLead, List.dropWhile, ha]

theorem dropTrail_isPrefix (l : List Char) : dropTrail l <+: l := by
  have h : (dropTrail l).reverse <:+ l.reverse := by
    rw [dropTrail, List.reverse_reverse]
    exact ⟨l.reverse.takeWhile isWs, List.takeWhile_append_dropWhile isWs l.reverse⟩
  exact List.reverse_suffix.mp h

theorem isPrefix_head? {v u : List Char} {a : Char} (h : v <+: u)
    (ha : v.head? = some a) : u.head? = some a := by
  obtain ⟨t, rfl⟩ := h
  cases v with
  | nil => simp at ha
  | cons b w => simp at ha ⊢; exact ha

theorem take_isPrefix (n : Nat) (l : List Char) : l.take n <+: l :=
  ⟨l.drop n, List.take_append_drop n l⟩

theorem pyStrip_head?_not_ws (l : List Char) (a : Char)
    (h : (pyStrip l).head? = some a) : isWs a = false := by
  have h2 : (dropLead l).head? = some a :=
    isPrefix_head? (dropTrail_isPrefix (dropLead l)) h
  exact dropWhile_head?_not isWs l a h2

theorem dropLead_pyStrip (l : List Char) : dropLead (pyStrip l) = pyStrip l :=
  dropLead_eq_self _ (fun a ha => pyStrip_head?_not_ws l a ha)

theorem dropLead_head_not {s : List Char} {a : Char} (hs : dropLead s = s)
    (ha : s.head? = some a) : isWs a = false := by
  cases s with
  | nil => simp at ha
  | cons b t =>
    simp at ha
    rw [← ha]
    cases hb : isWs b with
    | false => rfl
    | true =>
      exfalso
      rw [dropLead] at hs
      simp only [List.dropWhile_cons, hb, if_true] at hs
      have hlen : (t.dropWhile isWs).length ≤ t.length :=
        (List.dropWhile_suffix isWs).length_le
      have : (t.dropWhile isWs).length = t.length + 1 := by rw [hs]; simp
      omega

theorem pyStrip_isPrefix_of_dropLead (v : List Char) (h : dropLead v = v) :
    pyStrip v <+: v := by
  rw [pyStrip, h]
  exact dropTrail_isPrefix v

/-! ### Claims C1, C5, C9 about `strip_linkedin_noise` -/

/-- C1 (amended): for every input text containing a match of at least one
noise-marker pattern, `strip_linkedin_noise` returns the prefix of the text
before the earliest match — the substring ending at the minimum match-start
position over all noise-marker patterns — trimmed of leading and trailing
whitespace (the code applies `.strip()` to that prefix). -/
theorem strip_noise_truncates_at_earliest_match (text : List Char)
    (h : ∃ i, i ≤ text.length ∧ markerAnyAt text i = true) :
    markerAnyAt text (earliestNoise text) = true ∧
      (∀ j, j < earliestNoise text → markerAnyAt text j = false) ∧
      strip_linkedin_noise text = pyStrip (text.take (earliestNoise text)) := by
  obtain ⟨h1, h2⟩ := earliestNoise_min text h
  exact ⟨h1, h2, rfl⟩

/-- Witness for C1 at the concrete input `"x\nMore profiles for you"`, whose
earliest (only) noise-marker match starts at position 2. -/
theorem strip_noise_truncates_at_earliest_match_witness :
    markerAnyAt "x\nMore profiles for you".toList
        (earliestNoise "x\nMore profiles for you".toList) = true ∧
      (∀ j, j < earliestNoise "x\nMore profiles for you".toList →
        markerAnyAt "x\nMore profiles for you".toList j = false) ∧
      strip_linkedin_noise "x\nMore profiles for you".toList =
        pyStrip ("x\nMore profiles for you".toList.take
          (earliestNoise "x\nMore profiles for you".toList)) :=
  strip_noise_truncates_at_earliest_match _ ⟨2, by decide, by decide⟩

/-- C1 counterexample: the claim as stated — the result is exactly the raw
prefix `text[:earliest]` — fails, because the code strips whitespace from the
prefix.  On `"hi\nMore profiles for you"` the earliest match starts at 3, but
the function returns `"hi"`, not the raw prefix `"hi\n"`. -/
theorem strip_noise_raw_prefix_counterexample :
    earliestNoise "hi\nMore profiles for you".toList = 3 ∧
      markerAnyAt "hi\nMore profiles for you".toList 3 = true ∧
      strip_linkedin_noise "hi\nMore profiles for you".toList ≠
        "hi\nMore profiles for you".toList.take 3 := by
  decide

/-- C5: for every input text in which no noise-marker pattern matches,
`strip_linkedin_noise` returns the input trimmed of leading and trailing
whitespace, otherwise unchanged. -/
theorem strip_noise_no_marker_trims (text : List Char)
    (h : ∀ i, i ≤ text.length → markerAnyAt text i = false) :
    strip_linkedin_noise text = pyStrip text := by
  have hE : earliestNoise text = text.length := by
    rcases foldMin_cases text noiseMarkers text.length with hE | ⟨q, hq, hsq⟩
    · exact hE
    · exfalso
      obtain ⟨h1, h2, _⟩ := searchPat_eq_some q text _ hsq
      have hma : markerAnyAt text
          (noiseMarkers.foldl (fun a p => updMin a (searchPat p text)) text.length)
            = true :=
        (markerAnyAt_iff text _).mpr ⟨q, hq, h1⟩
      have hfalse := h _ h2
      rw [hfalse] at hma
      cases hma
  rw [strip_linkedin_noise, hE, List.take_length]

/-- Witness for C5 at the concrete input `"  hi there "` (no marker matches;
the result is the trimmed input). -/
theorem strip_noise_no_marker_trims_witness :
    strip_linkedin_noise "  hi there ".toList = pyStrip "  hi there ".toList :=
  strip_noise_no_marker_trims _ (by decide)

/-- C9 counterexample: `strip_linkedin_noise` is not idempotent.  On
`"More profiles for you \nExplore premium profiles"` the earliest match is the
`Explore premium profiles` line (the first line ends in a space, so
`^More profiles for you$` does not match it); truncating and stripping yields
`"More profiles for you"`, on which the `^More profiles for you$` marker now
matches at position 0, so a second application returns the empty string. -/
theorem strip_noise_not_idempotent_counterexample :
    strip_linkedin_noise (strip_linkedin_noise
        "More profiles for you \nExplore premium profiles".toList) ≠
      strip_linkedin_noise
        "More profiles for you \nExplore premium profiles".toList := by
  decide

/-- C9 (amended): applying `strip_linkedin_noise` to its own output returns a
prefix of that output: the second application never extends the text, but it
may strictly shorten it when the truncation-plus-trim of the first application
completes a noise-marker line (as in the counterexample). -/
theorem strip_noise_twice_isPrefix (text : List Char) :
    strip_linkedin_noise (strip_linkedin_noise text) <+: strip_linkedin_noise text := by
  have hds : dropLead (strip_linkedin_noise text) = strip_linkedin_noise text :=
    dropLead_pyStrip _
  have h1 : dropLead ((strip_linkedin_noise text).take
        (earliestNoise (strip_linkedin_noise text))) =
      (strip_linkedin_noise text).take
        (earliestNoise (strip_linkedin_noise text)) := by
    apply dropLead_eq_self
    intro a ha
    exact dropLead_head_not hds (isPrefix_head? (take_isPrefix _ _) ha)
  exact (pyStrip_isPrefix_of_dropLead _ h1).trans (take_isPrefix _ _)

/-! ### The extraction retry state machine (`extract_page` / `_extract_page_once`) -/

/-- `_RATE_LIMITED_MSG`: returned as section text when LinkedIn rate-limits
the page. -/
def RATE_LIMITED_MSG : List Char :=
  "[Rate limited] LinkedIn blocked this section. Try again later or request fewer sections.".toList

/-- The outcome of one awaited fetch as observed by its caller: it returns a
string, raises a `LinkedInScraperException` (a classified scraper exception),
or raises any other exception. -/
inductive FetchOutcome where
  | ret (s : List Char)
  | exnClassified
  | exnOther
deriving DecidableEq, Repr

/-- What `extract_page` does: produce a string, or let a classified
`LinkedInScraperException` propagate. -/
inductive PageResult where
  | value (s : List Char)
  | raisesClassified
deriving DecidableEq, Repr

/-- `extract_page(url)`, parametrised by the outcomes `a1`, `a2` the two
possible `_extract_page_once` attempts would have.  Returns the result
together with the number of attempts actually made.  The first attempt's
result is returned directly unless it is the rate-limit sentinel, in which
case (after a fixed backoff, not modelled) the second attempt's result is
returned.  `except LinkedInScraperException: raise` re-raises classified
exceptions; `except Exception: return ""` isolates everything else. -/
def extract_page (a1 a2 : FetchOutcome) : PageResult × Nat :=
  match a1 with
  | .exnClassified => (.raisesClassified, 1)
  | .exnOther => (.value [], 1)
  | .ret s =>
    if s = RATE_LIMITED_MSG then
      match a2 with
      | .exnClassified => (.raisesClassified, 2)
      | .exnOther => (.value [], 2)
      | .ret t => (.value t, 2)
    else (.value s, 1)

/-- The tail of `_extract_page_once` after the innerText read produced `raw`:
`if not raw: return ""`; strip the noise; if the cleaned text is empty while
the raw text is non-blank, return the rate-limit sentinel; else return the
cleaned text. -/
def classifyRawText (raw : List Char) : List Char :=
  if raw.isEmpty then []
  else
    let cleaned := strip_linkedin_noise raw
    if cleaned.isEmpty && !(pyStrip raw).isEmpty then RATE_LIMITED_MSG else cleaned

example : classifyRawText [] = [] := by decide

example : classifyRawText "More profiles for you".toList = RATE_LIMITED_MSG := by decide

example : classifyRawText "real content".toList = "real content".toList := by decide

/-- C2: `extract_page` makes at most two attempts; a non-sentinel first result
is returned after one attempt with no retry; a sentinel first result triggers
exactly one retry whose returned value (possibly the sentinel again) is the
final result. -/
theorem extract_page_two_attempt_policy (a1 a2 : FetchOutcome) :
    (extract_page a1 a2).2 ≤ 2 ∧
      (∀ s, a1 = .ret s → s ≠ RATE_LIMITED_MSG →
        extract_page a1 a2 = (.value s, 1)) ∧
      (a1 = .ret RATE_LIMITED_MSG →
        (extract_page a1 a2).2 = 2 ∧
          ∀ t, a2 = .ret t → (extract_page a1 a2).1 = .value t) := by
  refine ⟨?_, ?_, ?_⟩
  · cases a1 with
    | ret s =>
      by_cases h : s = RATE_LIMITED_MSG
      · subst h; cases a2 <;> simp [extract_page]
      · simp [extract_page, h]
    | exnClassified => simp [extract_page]
    | exnOther => simp [extract_page]
  · intro s h1 h2
    subst h1
    simp [extract_page, h2]
  · intro h1
    subst h1
    constructor
    · cases a2 <;> simp [extract_page]
    · intro t h2
      subst h2
      simp [extract_page]

/-- Witness for C2: a non-sentinel first attempt is returned directly after a
single attempt. -/
theorem extract_page_two_attempt_policy_witness :
    extract_page (.ret "alpha".toList) (.ret "beta".toList) =
      (.value "alpha".toList, 1) :=
  (extract_page_two_attempt_policy _ _).2.1 "alpha".toList rfl (by decide)

/-- C4: a classified `LinkedInScraperException` raised by either attempt
inside `extract_page` propagates; any other exception is swallowed and
reported as the empty string. -/
theorem extract_page_exception_isolation (a1 a2 : FetchOutcome) :
    (a1 = .exnClassified → extract_page a1 a2 = (.raisesClassified, 1)) ∧
      (a1 = .exnOther → extract_page a1 a2 = (.value [], 1)) ∧
      (a1 = .ret RATE_LIMITED_MSG →
        (a2 = .exnClassified → (extract_page a1 a2).1 = .raisesClassified) ∧
          (a2 = .exnOther → (extract_page a1 a2).1 = .value [])) := by
  refine ⟨fun h => by subst h; rfl, fun h => by subst h; rfl, fun h1 => ?_⟩
  subst h1
  exact ⟨fun h2 => by subst h2; simp [extract_page],
    fun h2 => by subst h2; simp [extract_page]⟩

/-- Witness for C4: a classified exception on the first attempt propagates. -/
theorem extract_page_exception_isolation_witness :
    extract_page .exnClassified (.ret []) = (.raisesClassified, 1) :=
  (extract_page_exception_isolation _ _).1 rfl

/-- C3 counterexample: the claimed iff — the sentinel is returned if and only
if the raw text is non-blank but strips to empty — fails when the raw
innerText happens to be the sentinel string itself: the code returns the
sentinel although the text does not strip to empty. -/
theorem classify_raw_sentinel_aliasing_counterexample :
    classifyRawText RATE_LIMITED_MSG = RATE_LIMITED_MSG ∧
      ¬(pyStrip RATE_LIMITED_MSG ≠ [] ∧
        strip_linkedin_noise RATE_LIMITED_MSG = []) := by
  decide

/-- C3 (amended): a single attempt returns the rate-limit sentinel iff the raw
innerText is non-blank but strips to the empty string, or the stripped text is
itself literally the sentinel string (in-band aliasing).  Empty raw text gives
the empty string, and in every non-sentinel-classified case the result is the
stripped text. -/
theorem classify_raw_classification (raw : List Char) :
    (classifyRawText raw = RATE_LIMITED_MSG ↔
      (pyStrip raw ≠ [] ∧ strip_linkedin_noise raw = []) ∨
        strip_linkedin_noise raw = RATE_LIMITED_MSG) ∧
      (raw = [] → classifyRawText raw = []) ∧
      (¬(pyStrip raw ≠ [] ∧ strip_linkedin_noise raw = []) →
        classifyRawText raw = strip_linkedin_noise raw) := by
  by_cases hraw : raw = []
  · subst hraw
    exact ⟨by decide, fun _ => by decide, fun _ => by decide⟩
  · have hne : raw.isEmpty = false := by
      cases raw
      · exact absurd rfl hraw
      · rfl
    by_cases h1 : strip_linkedin_noise raw = []
    · by_cases h2 : pyStrip raw = []
      · refine ⟨?_, fun h => absurd h hraw, fun _ => ?_⟩
        · simp [classifyRawText, hne, h1, h2]
        · simp [classifyRawText, hne, h1, h2]
      · have h2' : (pyStrip raw).isEmpty = false := by
          cases hp : pyStrip raw with
          | nil => exact absurd hp h2
          | cons a l => rfl
        refine ⟨?_, fun h => absurd h hraw, fun hc => absurd ⟨h2, h1⟩ hc⟩
        simp [classifyRawText, hne, h1, h2, h2']
    · have h1' : (strip_linkedin_noise raw).isEmpty = false := by
        cases hs : strip_linkedin_noise raw with
        | nil => exact absurd hs h1
        | cons a l => rfl
      refine ⟨?_, fun h => absurd h hraw, fun _ => ?_⟩
      · simp [classifyRawText, hne, h1, h1']
      · simp [classifyRawText, hne, h1']

/-- Witness for C3: a page consisting only of chrome (`"More profiles for
you"`) is non-blank but strips to empty, so the attempt classifies it as a
soft rate limit. -/
theorem classify_raw_classification_witness :
    classifyRawText "More profiles for you".toList = RATE_LIMITED_MSG :=
  (classify_raw_classification "More profiles for you".toList).1.mpr
    (Or.inl ⟨by decide, by decide⟩)

/-! ### Profile scraping (`scrape_person` / `scrape_company`) -/

/-- Modelled from the spec: `PersonScrapingFields` (defined in
`scraping/fields.py`, not among the sources at hand) is a bitmask-like set of
named boolean fields selecting which person-profile sub-pages to visit; the
mandatory base section is `BASIC_INFO`.  `fields |= BASIC_INFO` is modelled by
setting the corresponding boolean. -/
structure PersonScrapingFields where
  basic_info : Bool
  experience : Bool
  education : Bool
  interests : Bool
  honors : Bool
  languages : Bool
  contact_info : Bool
deriving DecidableEq, Repr

/-- Modelled from the spec: `CompanyScrapingFields`, with mandatory base
section `ABOUT` and optional `POSTS` and `JOBS`. -/
structure CompanyScrapingFields where
  about : Bool
  posts : Bool
  jobs : Bool
deriving DecidableEq, Repr

/-- One `page_map` entry of a scrape: the flag (already resolved against the
requested fields), the section name, the page URL, and whether the page is
fetched through the overlay extractor. -/
structure SectionPage where
  enabled : Bool
  name : List Char
  url : List Char
  is_overlay : Bool
deriving DecidableEq, Repr

/-- A scrape result `{url, sections, pages_visited, sections_requested}`;
`sections` is an association list in visit order. -/
structure ScrapeResult where
  url : List Char
  sections : List (List Char × List Char)
  pages_visited : List (List Char)
  sections_requested : List (List Char)
deriving DecidableEq, Repr

/-- The per-section loop shared by `scrape_person` and `scrape_company`:
disabled flags are skipped; the page is fetched (overlay pages through
`overlayF`, the rest through `pageF`); a classified exception aborts the whole
scrape (`none` models the re-raise); any other exception is logged and the
page still counts as visited; returned text is recorded under the section
name only when it is non-empty. -/
def runSections (pageF overlayF : List Char → FetchOutcome) :
    List SectionPage → Option (List (List Char × List Char) × List (List Char))
  | [] => some ([], [])
  | e :: rest =>
    if e.enabled then
      match (if e.is_overlay then overlayF e.url else pageF e.url) with
      | .exnClassified => none
      | .exnOther =>
        match runSections pageF overlayF rest with
        | none => none
        | some (secs, pages) => some (secs, e.url :: pages)
      | .ret t =>
        match runSections pageF overlayF rest with
        | none => none
        | some (secs, pages) =>
          some ((if t.isEmpty then secs else (e.name, t) :: secs), e.url :: pages)
    else runSections pageF overlayF rest

def personBaseUrl (username : List Char) : List Char :=
  "https://www.linkedin.com/in/".toList ++ username

/-- `fields |= PersonScrapingFields.BASIC_INFO`. -/
def forcePersonBasic (f : PersonScrapingFields) : PersonScrapingFields :=
  { f with basic_info := true }

/-- The `page_map` of `scrape_person`, in source order. -/
def personPageMap (base : List Char) (f : PersonScrapingFields) :
    List SectionPage :=
  [⟨f.basic_info, "main_profile".toList, base ++ "/".toList, false⟩,
   ⟨f.experience, "experience".toList, base ++ "/details/experience/".toList, false⟩,
   ⟨f.education, "education".toList, base ++ "/details/education/".toList, false⟩,
   ⟨f.interests, "interests".toList, base ++ "/details/interests/".toList, false⟩,
   ⟨f.honors, "honors".toList, base ++ "/details/honors/".toList, false⟩,
   ⟨f.languages, "languages".toList, base ++ "/details/languages/".toList, false⟩,
   ⟨f.contact_info, "contact_info".toList, base ++ "/overlay/contact-info/".toList, true⟩]

/-- `sections_requested` of `scrape_person`: `main_profile` first, then the
names of the requested extra sections in flag-enum order.  Modelled from the
spec: `PERSON_SECTION_MAP` (in the missing `fields.py`) maps exactly the six
documented extra section names, so `BASIC_INFO` contributes no extra name. -/
def personRequested (f : PersonScrapingFields) : List (List Char) :=
  "main_profile".toList ::
    ((if f.experience then ["experience".toList] else []) ++
     (if f.education then ["education".toList] else []) ++
     (if f.interests then ["interests".toList] else []) ++
     (if f.honors then ["honors".toList] else []) ++
     (if f.languages then ["languages".toList] else []) ++
     (if f.contact_info then ["contact_info".toList] else []))

/-- `scrape_person(username, fields)`, parametrised by the fetch outcomes of
the page and overlay extractors.  `none` models a propagating classified
exception. -/
def scrape_person (username : List Char) (fields : PersonScrapingFields)
    (pageF overlayF : List Char → FetchOutcome) : Option ScrapeResult :=
  let f := forcePersonBasic fields
  let base := personBaseUrl username
  match runSections pageF overlayF (personPageMap base f) with
  | none => none
  | some (secs, pages) =>
    some ⟨base ++ "/".toList, secs, pages, personRequested f⟩

def companyBaseUrl (company : List Char) : List Char :=
  "https://www.linkedin.com/company/".toList ++ company

/-- `fields |= CompanyScrapingFields.ABOUT`. -/
def forceCompanyAbout (f : CompanyScrapingFields) : CompanyScrapingFields :=
  { f with about := true }

/-- The `page_map` of `scrape_company`, in source order (no overlay pages). -/
def companyPageMap (base : List Char) (f : CompanyScrapingFields) :
    List SectionPage :=
  [⟨f.about, "about".toList, base ++ "/about/".toList, false⟩,
   ⟨f.posts, "posts".toList, base ++ "/posts/".toList, false⟩,
   ⟨f.jobs, "jobs".toList, base ++ "/jobs/".toList, false⟩]

/-- `sections_requested` of `scrape_company`.  Modelled from the spec:
`COMPANY_SECTION_MAP` maps the two documented extra names `posts`, `jobs`. -/
def companyRequested (f : CompanyScrapingFields) : List (List Char) :=
  "about".toList ::
    ((if f.posts then ["posts".toList] else []) ++
     (if f.jobs then ["jobs".toList] else []))

/-- `scrape_company(company_name, fields)`, parametrised by the fetch outcome
of `extract_page`. -/
def scrape_company (company : List Char) (fields : CompanyScrapingFields)
    (pageF : List Char → FetchOutcome) : Option ScrapeResult :=
  let f := forceCompanyAbout fields
  let base := companyBaseUrl company
  match runSections pageF pageF (companyPageMap base f) with
  | none => none
  | some (secs, pages) =>
    some ⟨base ++ "/".toList, secs, pages, companyRequested f⟩

/-- Anything recorded in `sections` by the scraping loop is the non-empty
result of fetching an enabled entry's page. -/
theorem runSections_mem (pageF overlayF : List Char → FetchOutcome) :
    ∀ (entries : List SectionPage) secs pages nm t,
      runSections pageF overlayF entries = some (secs, pages) →
      (nm, t) ∈ secs →
      t ≠ [] ∧ ∃ e ∈ entries, e.enabled = true ∧ e.name = nm ∧
        (if e.is_overlay then overlayF e.url else pageF e.url) = .ret t := by
  intro entries
  induction entries with
  | nil =>
    intro secs pages nm t h hmem
    simp only [runSections, Option.some.injEq, Prod.mk.injEq] at h
    rw [← h.1] at hmem
    simp at hmem
  | cons e rest ih =>
    intro secs pages nm t h hmem
    rw [runSections] at h
    by_cases hen : e.enabled
    · rw [if_pos hen] at h
      cases hfetch : (if e.is_overlay then overlayF e.url else pageF e.url) with
      | exnClassified => rw [hfetch] at h; cases h
      | exnOther =>
        rw [hfetch] at h
        cases hrec : runSections pageF overlayF rest with
        | none => rw [hrec] at h; cases h
        | some p =>
          obtain ⟨secs', pages'⟩ := p
          rw [hrec] at h
          simp only [Option.some.injEq, Prod.mk.injEq] at h
          rw [← h.1] at hmem
          obtain ⟨ht, e', hmem', he'⟩ := ih secs' pages' nm t hrec hmem
          exact ⟨ht, e', List.mem_cons_of_mem e hmem', he'⟩
      | ret t0 =>
        rw [hfetch] at h
        cases hrec : runSections pageF overlayF rest with
        | none => rw [hrec] at h; cases h
        | some p =>
          obtain ⟨secs', pages'⟩ := p
          rw [hrec] at h
          simp only [Option.some.injEq, Prod.mk.injEq] at h
          rw [← h.1] at hmem
          cases ht0 : t0.isEmpty with
          | true =>
            rw [ht0] at hmem
            simp only [if_true] at hmem
            obtain ⟨ht, e', hmem', he'⟩ := ih secs' pages' nm t hrec hmem
            exact ⟨ht, e', List.mem_cons_of_mem e hmem', he'⟩
          | false =>
            rw [ht0] at hmem
            simp only [Bool.false_eq_true, if_false] at hmem
            rcases List.mem_cons.mp hmem with heq | hmem'
            · obtain ⟨hnm, htt⟩ := Prod.mk.injEq .. |>.mp heq
              subst htt
              refine ⟨?_, e, List.mem_cons_self e rest, hen, hnm.symm, hfetch⟩
              intro hnil
              rw [hnil] at ht0
              cases ht0
            · obtain ⟨ht, e', hmem'', he'⟩ := ih secs' pages' nm t hrec hmem'
              exact ⟨ht, e', List.mem_cons_of_mem e hmem'', he'⟩
    · rw [if_neg hen] at h
      obtain ⟨ht, e', hmem', he'⟩ := ih secs pages nm t h hmem
      exact ⟨ht, e', List.mem_cons_of_mem e hmem', he'⟩

/-- When the first `page_map` entry is enabled, its URL is the first page
visited. -/
theorem runSections_head (pageF overlayF : List Char → FetchOutcome)
    (e : SectionPage) (rest : List SectionPage) (hen : e.enabled = true) :
    ∀ secs pages, runSections pageF overlayF (e :: rest) = some (secs, pages) →
      pages.head? = some e.url := by
  intro secs pages h
  rw [runSections, if_pos hen] at h
  cases hfetch : (if e.is_overlay then overlayF e.url else pageF e.url) with
  | exnClassified => rw [hfetch] at h; cases h
  | exnOther =>
    rw [hfetch] at h
    cases hrec : runSections pageF overlayF rest with
    | none => rw [hrec] at h; cases h
    | some p =>
      obtain ⟨secs', pages'⟩ := p
      rw [hrec] at h
      simp only [Option.some.injEq, Prod.mk.injEq] at h
      rw [← h.2]
      rfl
  | ret t0 =>
    rw [hfetch] at h
    cases hrec : runSections pageF overlayF rest with
    | none => rw [hrec] at h; cases h
    | some p =>
      obtain ⟨secs', pages'⟩ := p
      rw [hrec] at h
      simp only [Option.some.injEq, Prod.mk.injEq] at h
      rw [← h.2]
      rfl

/-- C6: in both `scrape_person` and `scrape_company`, the returned `sections`
mapping contains an entry only for a requested section whose page fetch
returned non-empty text; sections whose extraction yielded the empty string
(or failed) are absent. -/
theorem scrape_sections_only_nonempty
    (username company : List Char) (pf : PersonScrapingFields)
    (cf : CompanyScrapingFields) (pageF overlayF : List Char → FetchOutcome) :
    (∀ r nm t, scrape_person username pf pageF overlayF = some r →
      (nm, t) ∈ r.sections →
      t ≠ [] ∧ ∃ e ∈ personPageMap (personBaseUrl username) (forcePersonBasic pf),
        e.enabled = true ∧ e.name = nm ∧
          (if e.is_overlay then overlayF e.url else pageF e.url) = .ret t) ∧
    (∀ r nm t, scrape_company company cf pageF = some r →
      (nm, t) ∈ r.sections →
      t ≠ [] ∧ ∃ e ∈ companyPageMap (companyBaseUrl company) (forceCompanyAbout cf),
        e.enabled = true ∧ e.name = nm ∧ pageF e.url = .ret t) := by
  constructor
  · intro r nm t h hmem
    simp only [scrape_person] at h
    split at h
    next heq => cases h
    next secs pages heq =>
      injection h with h
      subst h
      exact runSections_mem pageF overlayF _ secs pages nm t heq hmem
  · intro r nm t h hmem
    simp only [scrape_company] at h
    split at h
    next heq => cases h
    next secs pages heq =>
      injection h with h
      subst h
      obtain ⟨ht, e, hmem', hen, hnm, hf⟩ :=
        runSections_mem pageF pageF _ secs pages nm t heq hmem
      rw [ite_self] at hf
      exact ⟨ht, e, hmem', hen, hnm, hf⟩

/-- C7: the mandatory base section is always included.  `scrape_person`
behaves exactly as if `BASIC_INFO` were set (`fields |= BASIC_INFO`),
`main_profile` is the first entry of `sections_requested`, and the main
profile page is the first page visited; likewise `scrape_company` forces
`ABOUT`, lists `about` first, and visits the about page first. -/
theorem scrape_mandatory_base_section
    (username company : List Char) (pf : PersonScrapingFields)
    (cf : CompanyScrapingFields) (pageF overlayF : List Char → FetchOutcome) :
    scrape_person username pf pageF overlayF =
        scrape_person username (forcePersonBasic pf) pageF overlayF ∧
      (∀ r, scrape_person username pf pageF overlayF = some r →
        r.sections_requested.head? = some "main_profile".toList ∧
          r.pages_visited.head? = some (personBaseUrl username ++ "/".toList)) ∧
      scrape_company company cf pageF =
        scrape_company company (forceCompanyAbout cf) pageF ∧
      (∀ r, scrape_company company cf pageF = some r →
        r.sections_requested.head? = some "about".toList ∧
          r.pages_visited.head? = some (companyBaseUrl company ++ "/about/".toList)) := by
  refine ⟨rfl, ?_, rfl, ?_⟩
  · intro r h
    simp only [scrape_person] at h
    split at h
    next heq => cases h
    next secs pages heq =>
      injection h with h
      subst h
      exact ⟨rfl, runSections_head pageF overlayF _ _ rfl secs pages heq⟩
  · intro r h
    simp only [scrape_company] at h
    split at h
    next heq => cases h
    next secs pages heq =>
      injection h with h
      subst h
      exact ⟨rfl, runSections_head pageF pageF _ _ rfl secs pages heq⟩

/-- Concrete fetcher used by the scraping witnesses: every page yields the
text `x`. -/
def fetchTextW : List Char → FetchOutcome := fun _ => .ret "x".toList

/-- Concrete person fields with no optional section requested. -/
def personFieldsW : PersonScrapingFields := ⟨false, false, false, false, false, false, false⟩

/-- Concrete company fields with no optional section requested. -/
def companyFieldsW : CompanyScrapingFields := ⟨false, false, false⟩

/-- The scrape result produced for the witness configuration. -/
def personResultW : ScrapeResult :=
  ⟨"https://www.linkedin.com/in/alice/".toList,
   [("main_profile".toList, "x".toList)],
   ["https://www.linkedin.com/in/alice/".toList],
   ["main_profile".toList]⟩

/-- Witness for C6: a concrete scrape whose one recorded section carries
non-empty fetched text. -/
theorem scrape_sections_only_nonempty_witness :
    "x".toList ≠ [] ∧
      ∃ e ∈ personPageMap (personBaseUrl "alice".toList)
          (forcePersonBasic personFieldsW),
        e.enabled = true ∧ e.name = "main_profile".toList ∧
          (if e.is_overlay then fetchTextW e.url else fetchTextW e.url) =
            .ret "x".toList :=
  (scrape_sections_only_nonempty "alice".toList "acme".toList personFieldsW
      companyFieldsW fetchTextW fetchTextW).1 personResultW
    "main_profile".toList "x".toList (by decide) (by decide)

/-- Witness for C7: in a concrete scrape with no optional sections requested,
`main_profile` is requested first and the main profile page is visited
first. -/
theorem scrape_mandatory_base_section_witness :
    personResultW.sections_requested.head? = some "main_profile".toList ∧
      personResultW.pages_visited.head? =
        some (personBaseUrl "alice".toList ++ "/".toList) :=
  (scrape_mandatory_base_section "alice".toList "acme".toList personFieldsW
      companyFieldsW fetchTextW fetchTextW).2.1 personResultW (by decide)

/-! ### Action methods (`connect_with_person` / `send_message`) -/

/-- An action result record `{status, message, profile_url}`. -/
structure ActionRecord where
  status : List Char
  message : List Char
  profile_url : List Char
deriving DecidableEq, Repr

/-- What an action method does: return a record, or let an exception
propagate (`classified` marks a `LinkedInScraperException`). -/
inductive ActionOutcome where
  | value (r : ActionRecord)
  | raises (classified : Bool)
deriving DecidableEq, Repr

/-- The note/send UI operations performed inside the invite or message
dialog. -/
inductive UIAction where
  | clickAddNote
  | fillNote (s : List Char)
  | clickSendInvitation
  | clickSendWithoutNote
  | fillMessage (s : List Char)
  | clickSendMessage
deriving DecidableEq, Repr

/-- The dialog classification computed by the first in-page evaluation of
`connect_with_person`. -/
inductive DialogType where
  | alreadyConnected
  | pending
  | pendingOnPage
  | inviteModal
  | noteInputModal
  | unknown
deriving DecidableEq, Repr

/-- Environment of one `connect_with_person` call: whether navigation or
rate-limit detection raised (classified?, message), the dialog state found,
whether the `Add a note` button was found and clicked, whether waiting for or
filling the note textarea raised, and whether the modal closed afterwards. -/
structure ConnectEnv where
  navExc : Option (Bool × List Char)
  dialog : DialogType
  addNoteClicked : Bool
  fillExc : Option (Bool × List Char)
  modalClosed : Bool
deriving DecidableEq, Repr

def profileUrlOf (u : List Char) : List Char :=
  "https://www.linkedin.com/in/".toList ++ u ++ "/".toList

/-- Shared tail of the invite-modal branch: after the send click, report
success if the modal closed, else a partial result.  The success message
appends ` with note` exactly when the caller passed a truthy note. -/
def connectFinish (u : List Char) (withNote modalClosed : Bool)
    (acts : List UIAction) : ActionOutcome × List UIAction :=
  if modalClosed then
    (.value ⟨"success".toList,
      "Connection request sent to ".toList ++ u ++
        (if withNote then " with note".toList else []),
      profileUrlOf u⟩, acts)
  else
    (.value ⟨"partial".toList, "Modal may still be visible for ".toList ++ u,
      profileUrlOf u⟩, acts)

/-- `connect_with_person(linkedin_username, note)`, parametrised by the
environment, returning the result together with the note/send UI actions
performed.  The method's only exception handlers are the inner
`except Exception` around the note fill and the outer catch-all
`except Exception`; both convert the exception — classified scraper
exceptions included — into an error record, so nothing propagates.  A `None`
or empty note is falsy in Python, so both send without a note.  (The `Debug:`
payload of the unknown-state message is not modelled.) -/
def connect_with_person (u : List Char) (note : Option (List Char))
    (env : ConnectEnv) : ActionOutcome × List UIAction :=
  match env.navExc with
  | some e =>
    (.value ⟨"error".toList,
      "Error connecting with ".toList ++ u ++ ": ".toList ++ e.2,
      profileUrlOf u⟩, [])
  | none =>
    match env.dialog with
    | .alreadyConnected =>
      (.value ⟨"already_connected".toList,
        "Already connected with ".toList ++ u, profileUrlOf u⟩, [])
    | .pending =>
      (.value ⟨"pending".toList,
        "Connection request already pending for ".toList ++ u,
        profileUrlOf u⟩, [])
    | .pendingOnPage =>
      (.value ⟨"pending".toList,
        "Connection request already pending for ".toList ++ u,
        profileUrlOf u⟩, [])
    | .inviteModal =>
      match note with
      | some n =>
        if n.isEmpty then
          connectFinish u false env.modalClosed [.clickSendWithoutNote]
        else if env.addNoteClicked then
          match env.fillExc with
          | some e =>
            (.value ⟨"error".toList, "Error filling note: ".toList ++ e.2,
              profileUrlOf u⟩, [.clickAddNote])
          | none =>
            connectFinish u true env.modalClosed
              [.clickAddNote, .fillNote (n.take 200), .clickSendInvitation]
        else
          connectFinish u true env.modalClosed [.clickSendWithoutNote]
      | none => connectFinish u false env.modalClosed [.clickSendWithoutNote]
    | .noteInputModal =>
      (.value ⟨"error".toList,
        "Could not determine invite modal state for ".toList ++ u,
        profileUrlOf u⟩, [])
    | .unknown =>
      (.value ⟨"error".toList,
        "Could not determine invite modal state for ".toList ++ u,
        profileUrlOf u⟩, [])

/-- Environment of one `send_message` call. -/
structure SendEnv where
  navExc : Option (Bool × List Char)
  composeFound : Bool
  fillExc : Option (Bool × List Char)
  sendClicked : Bool
deriving DecidableEq, Repr

/-- `send_message(linkedin_username, message)`, parametrised by the
environment.  The only inner handler catches the compose-box wait timeout;
every other exception — classified ones included — is converted by the outer
catch-all handler into an error record. -/
def send_message (u msg : List Char) (env : SendEnv) :
    ActionOutcome × List UIAction :=
  match env.navExc with
  | some e =>
    (.value ⟨"error".toList, "Error sending message: ".toList ++ e.2,
      profileUrlOf u⟩, [])
  | none =>
    if env.composeFound then
      match env.fillExc with
      | some e =>
        (.value ⟨"error".toList, "Error sending message: ".toList ++ e.2,
          profileUrlOf u⟩, [])
      | none =>
        if env.sendClicked then
          (.value ⟨"success".toList, "Message sent to ".toList ++ u,
            profileUrlOf u⟩, [.fillMessage msg, .clickSendMessage])
        else
          (.value ⟨"error".toList,
            "Could not find send button for ".toList ++ u,
            profileUrlOf u⟩, [.fillMessage msg])
    else
      (.value ⟨"error".toList,
        "Message compose area not found for ".toList ++ u ++
          ". They may have messaging disabled.".toList,
        profileUrlOf u⟩, [])

/-- Environment with a classified exception during navigation, used by the
C8 counterexample. -/
def connectEnvC : ConnectEnv :=
  ⟨some (true, "hard rate limit".toList), .unknown, false, none, false⟩

/-- C8 counterexample: a classified scraper exception (here a hard rate limit
raised while navigating) does not propagate out of `connect_with_person` as a
typed exception; the catch-all `except Exception` converts it into an
`{status: "error", message}` record. -/
theorem connect_classified_not_propagated_counterexample :
    (connect_with_person "alice".toList none connectEnvC).1 =
      ActionOutcome.value ⟨"error".toList,
        "Error connecting with alice: hard rate limit".toList,
        profileUrlOf "alice".toList⟩ ∧
      ∀ b, (connect_with_person "alice".toList none connectEnvC).1 ≠
        ActionOutcome.raises b := by
  decide

/-- C8 (amended): the action methods `connect_with_person` and `send_message`
never let any exception propagate: every exception — classified scraper
exceptions (authentication required, hard rate limit) included — is caught by
the per-method catch-all handler and converted into a `{status: "error",
message}` record, so a failure degrades to a reported status instead of
crashing the calling agent.  (The two-tier design with propagating classified
exceptions applies to the scraping methods, not to these action methods.) -/
theorem action_methods_convert_all_exceptions
    (u msg : List Char) (note : Option (List Char)) (env : ConnectEnv)
    (senv : SendEnv) :
    (∀ b, (connect_with_person u note env).1 ≠ ActionOutcome.raises b) ∧
      (∀ c m, env.navExc = some (c, m) →
        (connect_with_person u note env).1 =
          .value ⟨"error".toList,
            "Error connecting with ".toList ++ u ++ ": ".toList ++ m,
            profileUrlOf u⟩) ∧
      (∀ b, (send_message u msg senv).1 ≠ ActionOutcome.raises b) ∧
      (∀ c m, senv.navExc = some (c, m) →
        (send_message u msg senv).1 =
          .value ⟨"error".toList, "Error sending message: ".toList ++ m,
            profileUrlOf u⟩) := by
  refine ⟨?_, ?_, ?_, ?_⟩
  · intro b
    unfold connect_with_person connectFinish
    repeat' split
    all_goals simp
  · intro c m h
    simp [connect_with_person, h]
  · intro b
    unfold send_message
    repeat' split
    all_goals simp
  · intro c m h
    simp [send_message, h]

/-- Environment with a classified exception during `send_message` navigation,
used by the C8 witness. -/
def sendEnvW : SendEnv := ⟨some (true, "auth required".toList), false, none, false⟩

/-- Witness for C8: a classified navigation failure inside `send_message` is
converted into an error record. -/
theorem action_methods_convert_all_exceptions_witness :
    (send_message "bob".toList "hi".toList sendEnvW).1 =
      .value ⟨"error".toList,
        "Error sending message: ".toList ++ "auth required".toList,
        profileUrlOf "bob".toList⟩ :=
  (action_methods_convert_all_exceptions "bob".toList "hi".toList none
      connectEnvC sendEnvW).2.2.2 true "auth required".toList rfl

/-- C10: the only value `connect_with_person` ever fills into the invitation
note textarea is `note[:200]`: at most the first 200 characters of the
caller's note, so a longer note is silently truncated to 200 characters
before sending. -/
theorem connect_note_truncated_to_200
    (u : List Char) (note : Option (List Char)) (env : ConnectEnv)
    (s : List Char)
    (h : UIAction.fillNote s ∈ (connect_with_person u note env).2) :
    ∃ n, note = some n ∧ s = n.take 200 ∧ s.length ≤ 200 := by
  obtain ⟨nav, dlg, anc, fe, mc⟩ := env
  cases nav with
  | some e => simp [connect_with_person] at h
  | none =>
    cases dlg with
    | inviteModal =>
      cases note with
      | none =>
        simp [connect_with_person, connectFinish] at h
        cases mc <;> simp at h
      | some n =>
        cases hn : n.isEmpty with
        | true =>
          simp [connect_with_person, hn, connectFinish] at h
          cases mc <;> simp at h
        | false =>
          cases anc with
          | false =>
            simp [connect_with_person, hn, connectFinish] at h
            cases mc <;> simp at h
          | true =>
            cases fe with
            | some e => simp [connect_with_person, hn] at h
            | none =>
              simp [connect_with_person, hn, connectFinish] at h
              have hs : s = n.take 200 := by
                cases mc <;> simpa using h
              refine ⟨n, rfl, hs, ?_⟩
              rw [hs, List.length_take]
              exact Nat.min_le_left 200 n.length
    | alreadyConnected => simp [connect_with_person] at h
    | pending => simp [connect_with_person] at h
    | pendingOnPage => simp [connect_with_person] at h
    | noteInputModal => simp [connect_with_person] at h
    | unknown => simp [connect_with_person] at h

/-- Environment used by the C10 witness: invite modal found, `Add a note`
clicked, fill succeeded, modal closed. -/
def connectEnvW : ConnectEnv := ⟨none, .inviteModal, true, none, true⟩

/-- Witness for C10: the value filled for the concrete note `hello` is
`hello[:200]` and is at most 200 characters long. -/
theorem connect_note_truncated_to_200_witness :
    ∃ n, some "hello".toList = some n ∧ "hello".toList = n.take 200 ∧
      "hello".toList.length ≤ 200 :=
  connect_note_truncated_to_200 "alice".toList (some "hello".toList)
    connectEnvW "hello".toList (by decide)

end LinkedInMcp
